import Mathlib

/-!
Verification of the two scripts of this repository.

`CreateStatic` embeds `create_static.py`: the chain string builder that
nests `SinkModule` around repeated `AmplitudeScale` modules around a
`ConstModule` source, closes all angle brackets and appends `"sink;"`.

`Temp` embeds `temp.py`: the matrix multiply demo over two random 3x3
matrices and two fixed literal 3x3 integer matrices.
-/

namespace CreateStatic

/-- Number of middle modules in the chain (`NUM = 200` in the source). -/
def NUM : Nat := 200

/-- Source module label in the static chain. -/
def SOURCE : String := "ConstModule"

/-- Sink module label in the static chain. -/
def SINK : String := "SinkModule"

/-- Middle module label in the static chain. -/
def MID : String := "AmplitudeScale"

/-- Python string repetition `s * n`. -/
def strRepeat (s : String) : Nat → String
  | 0 => ""
  | n + 1 => s ++ strRepeat s n

/-- The string `init` built by `create_static.py`, generalized over the
repetition count `n` substituted for `NUM`:
`init = SINK + "<"`, then `+= (MID + "<") * n`, then `+= SOURCE`,
then `+= ">" * (n + 1)`. -/
def init (n : Nat) : String :=
  SINK ++ "<" ++ strRepeat (MID ++ "<") n ++ SOURCE ++ strRepeat ">" (n + 1)

/-- The line printed by `create_static.py`: `init + "sink;"`. -/
def output (n : Nat) : String :=
  init n ++ "sink;"

/-- Number of occurrences of the character `c` in the string `s`. -/
def countChar (s : String) (c : Char) : Nat :=
  s.data.count c

/-- List-level repetition, mirror of `strRepeat` on the character data. -/
def repList (l : List Char) : Nat → List Char
  | 0 => []
  | n + 1 => l ++ repList l n

/-- Boolean test that `p` is an initial segment of `l`. -/
def leadsWith : List Char → List Char → Bool
  | [], _ => true
  | _ :: _, [] => false
  | p :: ps, c :: cs => p == c && leadsWith ps cs

/-- Number of (possibly overlapping) occurrences of `pat` in `l`:
the number of positions of `l` at which `pat` starts. -/
def countOcc (pat : List Char) : List Char → Nat
  | [] => if leadsWith pat [] then 1 else 0
  | c :: cs => (if leadsWith pat (c :: cs) then 1 else 0) + countOcc pat cs

/-- Number of occurrences of the string `pat` in the string `s`. -/
def countSub (s pat : String) : Nat :=
  countOcc pat.data s.data

lemma data_append (s t : String) : (s ++ t).data = s.data ++ t.data := by
  cases s; cases t; rfl

lemma strRepeat_data (s : String) (n : Nat) :
    (strRepeat s n).data = repList s.data n := by
  induction n with
  | zero => rfl
  | succ n ih => simp [strRepeat, repList, data_append, ih]

/-- The character data of the printed line, in fully split form. -/
lemma output_data (n : Nat) :
    (output n).data =
      SINK.data ++ '<' ::
        (repList (MID.data ++ ['<']) n ++
          (SOURCE.data ++ (repList ['>'] (n + 1) ++ "sink;".data))) := by
  have hlt : ("<" : String).data = ['<'] := rfl
  have hgt : (">" : String).data = ['>'] := rfl
  have hmid : (MID ++ "<").data = MID.data ++ ['<'] := by
    rw [data_append, hlt]
  simp [output, init, data_append, strRepeat_data, hmid, hlt, hgt,
    List.append_assoc]

lemma count_repList (l : List Char) (c : Char) (n : Nat) :
    (repList l n).count c = n * l.count c := by
  induction n with
  | zero => simp [repList]
  | succ n ih => simp [repList, List.count_append, ih]; ring

/-- Opening angle brackets of the printed line: one from `SINK<`, one from
each of the `n` copies of `MID<`. -/
lemma count_open (n : Nat) : countChar (output n) '<' = n + 1 := by
  rw [countChar, output_data]
  simp [List.count_append, List.count_cons, count_repList]
  have h1 : SINK.data.count '<' = 0 := by decide
  have h2 : MID.data.count '<' = 0 := by decide
  have h3 : SOURCE.data.count '<' = 0 := by decide
  have h4 : "sink;".data.count '<' = 0 := by decide
  simp [h1, h2, h3, h4]

/-- Closing angle brackets of the printed line: the `n + 1` appended at
the end, and no other. -/
lemma count_close (n : Nat) : countChar (output n) '>' = n + 1 := by
  rw [countChar, output_data]
  simp [List.count_append, List.count_cons, count_repList]
  have h1 : SINK.data.count '>' = 0 := by decide
  have h2 : MID.data.count '>' = 0 := by decide
  have h3 : SOURCE.data.count '>' = 0 := by decide
  have h4 : "sink;".data.count '>' = 0 := by decide
  simp [h1, h2, h3, h4]

lemma leadsWith_append_self (p r : List Char) :
    leadsWith p (p ++ r) = true := by
  induction p with
  | nil => rfl
  | cons c cs ih => simp [leadsWith, ih]

/-- A position whose character differs from the head of the pattern is
not an occurrence. -/
lemma countOcc_cons_ne (p : Char) (ps : List Char) (c : Char) (l : List Char)
    (h : c ≠ p) : countOcc (p :: ps) (c :: l) = countOcc (p :: ps) l := by
  have hb : (p == c) = false := by
    simp [beq_eq_false_iff_ne]
    exact fun e => h e.symm
  simp [countOcc, leadsWith, hb]

/-- No occurrence starts inside a leading chunk that avoids the head
character of the pattern. -/
lemma countOcc_append_no_head (p : Char) (ps l rest : List Char)
    (h : p ∉ l) :
    countOcc (p :: ps) (l ++ rest) = countOcc (p :: ps) rest := by
  induction l with
  | nil => rfl
  | cons c cs ih =>
      have hc : c ≠ p := fun e => h (e ▸ List.mem_cons_self c cs)
      have hcs : p ∉ cs := fun hm => h (List.mem_cons_of_mem c hm)
      rw [List.cons_append, countOcc_cons_ne p ps c (cs ++ rest) hc, ih hcs]

lemma countOcc_eq_zero (p : Char) (ps l : List Char) (h : p ∉ l) :
    countOcc (p :: ps) l = 0 := by
  have := countOcc_append_no_head p ps l [] h
  simpa using this

/-- A pattern whose head character does not recur in its tail occurs once
at the front of `pat ++ rest`, plus whatever occurs in `rest`. -/
lemma countOcc_self_append (p : Char) (ps rest : List Char) (h : p ∉ ps) :
    countOcc (p :: ps) ((p :: ps) ++ rest) = 1 + countOcc (p :: ps) rest := by
  have h0 : leadsWith (p :: ps) ((p :: ps) ++ rest) = true :=
    leadsWith_append_self (p :: ps) rest
  have h1 : countOcc (p :: ps) ((p :: ps) ++ rest) =
      (if leadsWith (p :: ps) ((p :: ps) ++ rest) then 1 else 0) +
        countOcc (p :: ps) (ps ++ rest) := rfl
  rw [h1, h0]
  simp [countOcc_append_no_head p ps ps rest h]

lemma mem_repList (x : Char) (l : List Char) (n : Nat) (h : x ∈ repList l n) :
    x ∈ l := by
  induction n with
  | zero => simp [repList] at h
  | succ n ih =>
      rw [repList, List.mem_append] at h
      exact h.elim id ih

/-- Occurrences of `p :: ps` in `n` copies of the block `(p :: ps) ++ extra`
followed by `rest`: one per copy, plus the occurrences in `rest`, provided
the head `p` recurs neither in `ps` nor in `extra`. -/
lemma countOcc_repList_block (p : Char) (ps extra : List Char) (n : Nat)
    (rest : List Char) (hps : p ∉ ps) (hextra : p ∉ extra) :
    countOcc (p :: ps) (repList ((p :: ps) ++ extra) n ++ rest) =
      n + countOcc (p :: ps) rest := by
  induction n with
  | zero => simp [repList]
  | succ n ih =>
      rw [repList, List.append_assoc, List.append_assoc,
        countOcc_self_append p ps _ hps,
        countOcc_append_no_head p ps extra _ hextra, ih]
      omega

lemma MID_data : MID.data = 'A' :: "mplitudeScale".data := rfl

lemma SOURCE_data : SOURCE.data = 'C' :: "onstModule".data := rfl

/-- `"AmplitudeScale"` occurs exactly `n` times in the printed line. -/
lemma count_mid (n : Nat) : countSub (output n) MID = n := by
  rw [countSub, output_data, MID_data]
  rw [countOcc_append_no_head 'A' _ SINK.data _ (by decide)]
  rw [countOcc_cons_ne 'A' _ '<' _ (by decide)]
  rw [countOcc_repList_block 'A' "mplitudeScale".data ['<'] n _
    (by decide) (by decide)]
  rw [countOcc_append_no_head 'A' _ SOURCE.data _ (by decide)]
  rw [countOcc_append_no_head 'A' _ (repList ['>'] (n + 1)) _
    (fun hm => by have := mem_repList 'A' ['>'] (n + 1) hm; simp at this)]
  rw [countOcc_eq_zero 'A' _ "sink;".data (by decide)]
  omega

/-- `"ConstModule"` occurs exactly once in the printed line. -/
lemma count_src (n : Nat) : countSub (output n) SOURCE = 1 := by
  rw [countSub, output_data, SOURCE_data]
  rw [countOcc_append_no_head 'C' _ SINK.data _ (by decide)]
  rw [countOcc_cons_ne 'C' _ '<' _ (by decide)]
  rw [countOcc_append_no_head 'C' _ (repList (MID.data ++ ['<']) n) _
    (fun hm => by
      have := mem_repList 'C' (MID.data ++ ['<']) n hm
      revert this; decide)]
  rw [countOcc_self_append 'C' "onstModule".data _ (by decide)]
  rw [countOcc_append_no_head 'C' _ (repList ['>'] (n + 1)) _
    (fun hm => by have := mem_repList 'C' ['>'] (n + 1) hm; simp at this)]
  rw [countOcc_eq_zero 'C' _ "sink;".data (by decide)]

lemma repList_length (l : List Char) (n : Nat) :
    (repList l n).length = n * l.length := by
  induction n with
  | zero => simp [repList]
  | succ n ih => simp [repList, ih]; ring

/-- Pulling the leading separator through the repeated blocks:
`c (m c)^n = (c m)^n c`. -/
lemma cons_repList_snoc (c : Char) (m : List Char) (n : Nat) :
    c :: repList (m ++ [c]) n = repList (c :: m) n ++ [c] := by
  induction n with
  | zero => rfl
  | succ n ih =>
      show c :: ((m ++ [c]) ++ repList (m ++ [c]) n) = _
      rw [List.append_assoc]
      show (c :: m) ++ ([c] ++ repList (m ++ [c]) n) = _
      rw [List.singleton_append, ih, repList]
      simp [List.append_assoc]

/-- Decomposition of the printed line at the final opening bracket. -/
lemma output_split_last_open (n : Nat) :
    (output n).data =
      (SINK.data ++ repList ('<' :: MID.data) n) ++
        ('<' :: (SOURCE.data ++ (repList ['>'] (n + 1) ++ "sink;".data))) := by
  rw [output_data]
  rw [show ('<' :: (repList (MID.data ++ ['<']) n ++
      (SOURCE.data ++ (repList ['>'] (n + 1) ++ "sink;".data)))) =
      ('<' :: repList (MID.data ++ ['<']) n) ++
      (SOURCE.data ++ (repList ['>'] (n + 1) ++ "sink;".data)) from rfl]
  rw [cons_repList_snoc '<' MID.data n]
  simp [List.append_assoc]

lemma split_prefix_length (n : Nat) :
    (SINK.data ++ repList ('<' :: MID.data) n).length = 10 + 15 * n := by
  have h1 : SINK.data.length = 10 := by decide
  have h2 : ('<' :: MID.data).length = 15 := by decide
  simp [repList_length, h1, h2]
  ring

/-- What stands from position `10 + 15 n` on: the final `<`, then
`ConstModule`, then the closing brackets and `sink;`. -/
lemma output_drop_last_open (n : Nat) :
    (output n).data.drop (10 + 15 * n) =
      '<' :: (SOURCE.data ++ (repList ['>'] (n + 1) ++ "sink;".data)) := by
  rw [output_split_last_open, ← split_prefix_length n, List.drop_left]

/-- What stands from position `11 + 15 n` on: `ConstModule`, then the
closing brackets and `sink;`. -/
lemma output_drop_source (n : Nat) :
    (output n).data.drop (11 + 15 * n) =
      SOURCE.data ++ (repList ['>'] (n + 1) ++ "sink;".data) := by
  have h := congrArg (List.drop 1) (output_drop_last_open n)
  rw [List.drop_drop] at h
  rw [show 10 + 15 * n + 1 = 11 + 15 * n by omega] at h
  simpa using h

/-- All `n + 1` opening brackets of the printed line stand before
position `11 + 15 n`. -/
lemma count_take_open (n : Nat) :
    ((output n).data.take (11 + 15 * n)).count '<' = n + 1 := by
  have hsplit := List.take_append_drop (11 + 15 * n) (output n).data
  have hc : ((output n).data).count '<' = n + 1 := count_open n
  rw [← hsplit, List.count_append] at hc
  have hd : ((output n).data.drop (11 + 15 * n)).count '<' = 0 := by
    rw [output_drop_source]
    have h1 : SOURCE.data.count '<' = 0 := by decide
    have h2 : "sink;".data.count '<' = 0 := by decide
    simp [List.count_append, count_repList, h1, h2]
  omega

/-- Claim C1: for every non-negative integer `n` substituted for `NUM`,
the printed line contains exactly `n + 1` opening angle brackets and
exactly `n + 1` closing angle brackets, and it ends with `"sink;"`. -/
theorem chain_bracket_counts (n : Nat) :
    countChar (output n) '<' = n + 1 ∧
    countChar (output n) '>' = n + 1 ∧
    ∃ t, output n = t ++ "sink;" :=
  ⟨count_open n, count_close n, ⟨init n, rfl⟩⟩

theorem chain_bracket_counts_check :
    countChar (output 3) '<' = 4 ∧
    countChar (output 3) '>' = 4 ∧
    ∃ t, output 3 = t ++ "sink;" :=
  chain_bracket_counts 3

/-- Claim C2: with the default `NUM = 200`, the printed line contains
exactly 201 `<` and exactly 201 `>`, the substring `"ConstModule"` occurs
exactly once, and that occurrence stands right after the 201st `<`: the
character at position 3010 is `<`, it is immediately followed by
`ConstModule`, and all 201 opening brackets lie in the first 3011
characters. -/
theorem chain_default_two_hundred :
    countChar (output NUM) '<' = 201 ∧
    countChar (output NUM) '>' = 201 ∧
    countSub (output NUM) SOURCE = 1 ∧
    (output NUM).data.drop 3010 =
      '<' :: (SOURCE.data ++ (repList ['>'] 201 ++ "sink;".data)) ∧
    ((output NUM).data.take 3011).count '<' = 201 := by
  refine ⟨?_, ?_, count_src 200, ?_, ?_⟩
  · have h := count_open 200; norm_num at h; exact h
  · have h := count_close 200; norm_num at h; exact h
  · have h := output_drop_last_open 200; norm_num at h; exact h
  · have h := count_take_open 200; norm_num at h; exact h

/-- Claim C4: with repetition count 0 the printed line degenerates to
`SinkModule<ConstModule>sink;`. -/
theorem chain_zero : output 0 = "SinkModule<ConstModule>sink;" := by
  decide

/-- Claim C8: the substring `"AmplitudeScale"` occurs exactly `n` times in
the printed line built with repetition count `n`; in particular exactly
200 times for the default `NUM = 200`. -/
theorem mid_occurrences (n : Nat) :
    countSub (output n) MID = n ∧ countSub (output NUM) MID = 200 :=
  ⟨count_mid n, count_mid 200⟩

theorem mid_occurrences_check :
    countSub (output 2) MID = 2 ∧ countSub (output NUM) MID = 200 :=
  mid_occurrences 2

/-- Claim C10: in the printed line every opening angle bracket stands
strictly before every closing angle bracket: if position `i` holds `<`
and position `j` holds `>`, then `i < j`. -/
theorem brackets_ordered (n i j : Nat)
    (hi : ((output n).data)[i]? = some '<')
    (hj : ((output n).data)[j]? = some '>') : i < j := by
  have hsplit : (output n).data =
      ((SINK.data ++ repList ('<' :: MID.data) n) ++ ('<' :: SOURCE.data)) ++
        (repList ['>'] (n + 1) ++ "sink;".data) := by
    rw [output_split_last_open]
    simp [List.append_assoc]
  set U := (SINK.data ++ repList ('<' :: MID.data) n) ++ ('<' :: SOURCE.data)
    with hU
  set V := repList ['>'] (n + 1) ++ "sink;".data with hV
  have hUgt : '>' ∉ U := by
    intro hm
    rcases List.mem_append.1 hm with h1 | h2
    · rcases List.mem_append.1 h1 with h3 | h4
      · revert h3; decide
      · have h5 := mem_repList '>' ('<' :: MID.data) n h4
        revert h5; decide
    · rcases List.mem_cons.1 h2 with h5 | h6
      · exact absurd h5 (by decide)
      · revert h6; decide
  have hVlt : '<' ∉ V := by
    intro hm
    rcases List.mem_append.1 hm with h1 | h2
    · have h3 := mem_repList '<' ['>'] (n + 1) h1
      revert h3; decide
    · revert h2; decide
  rw [hsplit] at hi hj
  have hiU : i < U.length := by
    by_contra hle
    push_neg at hle
    rw [List.getElem?_append_right hle] at hi
    exact hVlt (List.getElem?_mem hi)
  have hjV : U.length ≤ j := by
    by_contra hlt
    push_neg at hlt
    rw [List.getElem?_append_left hlt] at hj
    exact hUgt (List.getElem?_mem hj)
  omega

theorem brackets_ordered_check :
    ((output 0).data)[10]? = some '<' ∧
    ((output 0).data)[22]? = some '>' ∧ (10 : Nat) < 22 :=
  ⟨by decide, by decide, brackets_ordered 0 10 22 (by decide) (by decide)⟩

end CreateStatic

namespace Temp

/-- The first fixed literal matrix `a` of `temp.py`. -/
def a : Matrix (Fin 3) (Fin 3) ℤ :=
  !![1, 2, 3; 4, 5, 6; 7, 8, 9]

/-- The second fixed literal matrix `b` of `temp.py`. -/
def b : Matrix (Fin 3) (Fin 3) ℤ :=
  !![10, 20, 30; 40, 50, 60; 70, 80, 90]

/-- Semantics of numpy's `@` on two-dimensional 3x3 arrays: row-by-column
matrix multiplication, cell `(i, j)` is the sum over `k` of
`A i k * B k j`. -/
def matMul {α : Type} [NonUnitalNonAssocSemiring α]
    (A B : Matrix (Fin 3) (Fin 3) α) : Matrix (Fin 3) (Fin 3) α :=
  Matrix.of fun i j => ∑ k : Fin 3, A i k * B k j

lemma matMul_eq_mul {α : Type} [NonUnitalNonAssocSemiring α]
    (A B : Matrix (Fin 3) (Fin 3) α) : matMul A B = A * B := by
  ext i j
  simp [matMul, Matrix.mul_apply]

/-- The values printed by `temp.py`, in order, as a function of the two
random draws `A` and `B`: `print(A)`, `print(B)`, `print(A @ B)`,
`print(a @ b)`; the two fixed integer matrices enter through their
rational images. -/
def printedMatrices (A B : Matrix (Fin 3) (Fin 3) ℚ) :
    List (Matrix (Fin 3) (Fin 3) ℚ) :=
  [A, B, matMul A B, (matMul a b).map Int.cast]

/-- One run of `temp.py` as a function of its two random draws: the draws
themselves, the two fixed literal matrices, and the two computed
products. -/
structure RunState where
  A : Matrix (Fin 3) (Fin 3) ℚ
  B : Matrix (Fin 3) (Fin 3) ℚ
  aFix : Matrix (Fin 3) (Fin 3) ℤ
  bFix : Matrix (Fin 3) (Fin 3) ℤ
  prodRand : Matrix (Fin 3) (Fin 3) ℚ
  prodFix : Matrix (Fin 3) (Fin 3) ℤ

/-- Executing `temp.py` with given random draws. -/
def run (A B : Matrix (Fin 3) (Fin 3) ℚ) : RunState :=
  ⟨A, B, a, b, matMul A B, matMul a b⟩

/-- Claim C3: the product of the two fixed integer matrices equals
`[[300,360,420],[660,810,960],[1020,1260,1500]]` exactly, in integer
arithmetic. -/
theorem fixed_product_value :
    matMul a b = !![300, 360, 420; 660, 810, 960; 1020, 1260, 1500] := by
  decide

/-- Claim C5: for every pair of 3x3 matrices, cell `(i, j)` of the
computed product is the sum of the three pairwise products of row `i` of
the left operand with column `j` of the right operand, which is exactly
standard row-by-column matrix multiplication. -/
theorem matmul_semantics (A B : Matrix (Fin 3) (Fin 3) ℚ) (i j : Fin 3) :
    matMul A B i j = A i 0 * B 0 j + A i 1 * B 1 j + A i 2 * B 2 j ∧
    matMul A B = A * B := by
  constructor
  · simp [matMul, Fin.sum_univ_three]
  · exact matMul_eq_mul A B

theorem matmul_semantics_check :
    matMul (0 : Matrix (Fin 3) (Fin 3) ℚ) 0 0 0 =
      (0 : Matrix (Fin 3) (Fin 3) ℚ) 0 0 * (0 : Matrix (Fin 3) (Fin 3) ℚ) 0 0 +
      (0 : Matrix (Fin 3) (Fin 3) ℚ) 0 1 * (0 : Matrix (Fin 3) (Fin 3) ℚ) 1 0 +
      (0 : Matrix (Fin 3) (Fin 3) ℚ) 0 2 * (0 : Matrix (Fin 3) (Fin 3) ℚ) 2 0 ∧
    matMul (0 : Matrix (Fin 3) (Fin 3) ℚ) 0 = 0 * 0 :=
  matmul_semantics 0 0 0 0

/-- Claim C6: the demo writes exactly four matrices, in order: the random
matrix `A`, the random matrix `B`, the product `A * B`, and the product
of the two fixed literal matrices. -/
theorem temp_output_order (A B : Matrix (Fin 3) (Fin 3) ℚ) :
    (printedMatrices A B).length = 4 ∧
    (printedMatrices A B)[0]? = some A ∧
    (printedMatrices A B)[1]? = some B ∧
    (printedMatrices A B)[2]? = some (A * B) ∧
    (printedMatrices A B)[3]? = some ((a * b).map Int.cast) := by
  refine ⟨rfl, rfl, rfl, ?_, ?_⟩
  · simp [printedMatrices, matMul_eq_mul]
  · simp [printedMatrices, matMul_eq_mul]

theorem temp_output_order_check :
    (printedMatrices 0 0).length = 4 ∧
    (printedMatrices 0 0)[0]? = some 0 ∧
    (printedMatrices 0 0)[1]? = some 0 ∧
    (printedMatrices 0 0)[2]? = some ((0 : Matrix (Fin 3) (Fin 3) ℚ) * 0) ∧
    (printedMatrices 0 0)[3]? = some ((a * b).map Int.cast) :=
  temp_output_order 0 0

/-- Claim C7: across any two runs, whatever the random draws of each,
the two fixed matrices and the fixed-matrix product are identical. -/
theorem fixed_across_runs (A₁ B₁ A₂ B₂ : Matrix (Fin 3) (Fin 3) ℚ) :
    (run A₁ B₁).aFix = (run A₂ B₂).aFix ∧
    (run A₁ B₁).bFix = (run A₂ B₂).bFix ∧
    (run A₁ B₁).prodFix = (run A₂ B₂).prodFix :=
  ⟨rfl, rfl, rfl⟩

theorem fixed_across_runs_check :
    (run 0 0).aFix = (run 1 1).aFix ∧
    (run 0 0).bFix = (run 1 1).bFix ∧
    (run 0 0).prodFix = (run 1 1).prodFix :=
  fixed_across_runs 0 0 1 1

/-- Claim C9: the second fixed matrix is the first scaled by 10, and the
fixed-matrix product `a @ b` is 10 times the product `a @ a`. -/
theorem b_is_ten_a :
    b = (10 : ℤ) • a ∧ matMul a b = (10 : ℤ) • matMul a a := by
  have hb : b = (10 : ℤ) • a := by decide
  refine ⟨hb, ?_⟩
  rw [matMul_eq_mul, matMul_eq_mul, hb, Matrix.mul_smul]

end Temp
